import Mathlib

/-!
Shallow embedding of the dsvc core (src/dsvc/cad_parser_xml.py and
src/dsvc/cam_parser_xml.py): the type-inferring extractor and the
structural differ, plus the sibling CAM extractor.

Python dictionaries are modelled as insertion-ordered association lists
with unique keys; Python float values parsed from strings are modelled
exactly as a tagged union of a rational (finite values), signed infinity
and NaN.  Python string stripping and splitting are modelled over the
ASCII whitespace characters.
-/

namespace DSVC

/-! ### Python string primitives -/

/-- ASCII whitespace as recognised by Python str.strip and str.split. -/
def pyIsSpace (c : Char) : Bool :=
  c = ' ' || c = '\t' || c = '\n' || c = '\r' || c = '\x0b' || c = '\x0c'

/-- Strip whitespace from both ends of a character list. -/
def pyStripChars (cs : List Char) : List Char :=
  ((cs.dropWhile pyIsSpace).reverse.dropWhile pyIsSpace).reverse

/-- Model of Python str.strip(). -/
def pyStrip (s : String) : String := String.mk (pyStripChars s.toList)

/-- Accumulator-based splitter: split on runs of whitespace, dropping
empty chunks, as Python str.split() with no arguments does. -/
def splitAux : List Char → List Char → List (List Char)
  | [], acc => if acc.isEmpty then [] else [acc.reverse]
  | c :: rest, acc =>
    if pyIsSpace c then
      if acc.isEmpty then splitAux rest [] else acc.reverse :: splitAux rest []
    else splitAux rest (c :: acc)

/-- Model of Python str.split() with no arguments. -/
def pySplit (s : String) : List String := (splitAux s.toList []).map String.mk

/-! ### Python float values and float-from-string parsing -/

/-- A Python float produced by the float builtin from a string: a finite
value (kept exact as a rational), a signed infinity, or NaN. -/
inductive PyFloat where
  | finite : ℚ → PyFloat
  | inf : Bool → PyFloat
  | nan : PyFloat
  deriving DecidableEq, Repr

/-- Numeric value of a list of decimal digit characters. -/
def digitsVal (ds : List Char) : ℕ := ds.foldl (fun a c => 10 * a + (c.toNat - 48)) 0

/-- A character that may appear inside a digit group: a decimal digit or
an underscore (PEP 515). -/
def isDigitU (c : Char) : Bool := c.isDigit || c = '_'

/-- State machine checking that a run of digits and underscores is a valid
group: starts and ends with a digit, underscores only between digits.  The
Boolean argument records whether the previous character was a digit. -/
def okGroupAux : List Char → Bool → Bool
  | [], prev => prev
  | c :: rest, prev =>
    if c.isDigit then okGroupAux rest true
    else if c = '_' then prev && okGroupAux rest false
    else false

/-- A valid non-empty digit group with medial underscores. -/
def okGroup (cs : List Char) : Bool := okGroupAux cs false

/-- Parse a non-empty digit group (digits with medial underscores):
take the maximal run of digits and underscores, check its shape, return
the digits (underscores removed) and the unconsumed remainder. -/
def parseGroup (cs : List Char) : Option (List Char × List Char) :=
  let run := cs.takeWhile isDigitU
  if okGroup run then some (run.filter (fun c => c.isDigit), cs.dropWhile isDigitU)
  else none

/-- Parse an optional digit group: on failure consume nothing. -/
def optGroup (cs : List Char) : List Char × List Char :=
  match parseGroup cs with
  | some p => p
  | none => ([], cs)

/-- Exact rational value of a parsed decimal literal: sign, integer digits,
fraction digits, exponent sign and exponent digits. -/
def decValue (neg : Bool) (intDs fracDs : List Char) (eNeg : Bool) (expDs : List Char) : ℚ :=
  let m : Int := (digitsVal (intDs ++ fracDs) : Int)
  let m : Int := if neg then -m else m
  let e : Int := (if eNeg then -(digitsVal expDs : Int) else (digitsVal expDs : Int))
                   - (fracDs.length : Int)
  if 0 ≤ e then mkRat (m * (10 : Int) ^ e.toNat) 1 else mkRat m ((10 : ℕ) ^ (-e).toNat)

/-- Parse the decimal-literal body accepted by the Python float builtin
(after sign removal): optional integer digits, optional dot with optional
fraction digits (at least one digit overall), optional exponent.  The
whole input must be consumed. -/
def parseDecimal (neg : Bool) (cs : List Char) : Option PyFloat :=
  let p1 := optGroup cs
  let p2 := match p1.2 with
            | '.' :: rest => optGroup rest
            | _ => ([], p1.2)
  if p1.1.length + p2.1.length = 0 then none
  else
    match p2.2 with
    | [] => some (PyFloat.finite (decValue neg p1.1 p2.1 false []))
    | c :: rest =>
      if c = 'e' ∨ c = 'E' then
        let sp : Bool × List Char :=
          match rest with
          | '+' :: t => (false, t)
          | '-' :: t => (true, t)
          | _ => (false, rest)
        match parseGroup sp.2 with
        | some (eds, []) => some (PyFloat.finite (decValue neg p1.1 p2.1 sp.1 eds))
        | _ => none
      else none

/-- Body of float-from-string after the optional sign: the words inf,
infinity and nan (case-insensitively), else a decimal literal. -/
def pyFloatBody (neg : Bool) (cs : List Char) : Option PyFloat :=
  let l := cs.map Char.toLower
  if l = "inf".toList ∨ l = "infinity".toList then some (PyFloat.inf neg)
  else if l = "nan".toList then some PyFloat.nan
  else parseDecimal neg cs

/-- Model of the Python float builtin applied to a string: strip
whitespace, read an optional sign, then the body.  Returns none exactly
when Python float(s) raises ValueError. -/
def pyFloat? (s : String) : Option PyFloat :=
  match pyStripChars s.toList with
  | '+' :: rest => pyFloatBody false rest
  | '-' :: rest => pyFloatBody true rest
  | cs => pyFloatBody false cs

/-- The float value of a string known to be numeric (default never used
under the is_number guard). -/
def pyFloat (s : String) : PyFloat := (pyFloat? s).getD PyFloat.nan

/-! ### Classification primitives (cad_parser_xml.py lines 9 to 22) -/

/-- Source is_number: float(s) succeeds (the except clause catches the
ValueError and returns False). -/
def is_number (s : String) : Bool := (pyFloat? s).isSome

/-- Source is_point: the text splits into exactly three tokens, each a
number. -/
def is_point (text : String) : Bool :=
  let parts := pySplit text
  parts.length == 3 && parts.all is_number

/-! ### Typed values -/

/-- The tagged union of extracted CAD values: a float, a point dictionary
with fields x, y, z, or a plain string. -/
inductive Value where
  | num : PyFloat → Value
  | point : PyFloat → PyFloat → PyFloat → Value
  | text : String → Value
  deriving DecidableEq, Repr

/-- Source parse_point: split and take the three tokens as x, y, z in
token order. -/
def parse_point (text : String) : Value :=
  let parts := pySplit text
  Value.point (pyFloat (parts.getD 0 "")) (pyFloat (parts.getD 1 ""))
    (pyFloat (parts.getD 2 ""))

/-- The classification performed inline by extract_features (lines 77 to
84) on the stripped text of an attribute node: number first, then point,
else the text itself. -/
def classify (t : String) : Value :=
  if is_number t then Value.num (pyFloat t)
  else if is_point t then parse_point t
  else Value.text t

example : classify "3" = Value.num (PyFloat.finite 3) := by decide
example : classify "0 0 1" =
    Value.point (PyFloat.finite 0) (PyFloat.finite 0) (PyFloat.finite 1) := by decide
example : classify "OUTER_DIAMETER(1of1)" = Value.text "OUTER_DIAMETER(1of1)" := by decide
example : classify "" = Value.text "" := by decide
example : classify "nan" = Value.num PyFloat.nan := by decide
example : classify "-1.5e2" = Value.num (PyFloat.finite (-150)) := by decide
example : classify "1_0" = Value.num (PyFloat.finite 10) := by decide
example : classify "1_" = Value.text "1_" := by decide
example : classify "119.55 69.0222 -32" =
    Value.point (PyFloat.finite (mkRat 2391 20)) (PyFloat.finite (mkRat 345111 5000))
      (PyFloat.finite (-32)) := by decide
example : classify "1 2" = Value.text "1 2" := by decide
example : classify "+inf" = Value.num (PyFloat.inf false) := by decide

/-! ### Python dictionaries as insertion-ordered association lists -/

/-- Dictionary lookup: d[k] or d.get(k), as an Option. -/
def dget (d : List (String × α)) (k : String) : Option α :=
  (d.find? (fun p => p.1 == k)).map Prod.snd

/-- Dictionary key membership: k in d. -/
def dmem (d : List (String × α)) (k : String) : Bool :=
  d.any (fun p => p.1 == k)

/-- Dictionary assignment d[k] = v: replace the value in place if the key
is present (keeping its position), else append the new pair. -/
def dictInsert (d : List (String × α)) (k : String) (v : α) : List (String × α) :=
  if dmem d k then d.map (fun p => if p.1 == k then (p.1, v) else p)
  else d ++ [(k, v)]

/-- The idiom: if tag not in d, d[tag] = []; then d[tag].append(x). -/
def featAppend (d : List (String × List α)) (tag : String) (x : α) :
    List (String × List α) :=
  if dmem d tag then d.map (fun p => if p.1 == tag then (p.1, p.2 ++ [x]) else p)
  else d ++ [(tag, [x])]

/-! ### XML trees -/

/-- A parsed XML element: tag, optional text content (None for empty
elements, as ElementTree reports), children in document order. -/
inductive XMLNode where
  | mk : String → Option String → List XMLNode → XMLNode

def XMLNode.tag : XMLNode → String
  | .mk t _ _ => t

def XMLNode.text : XMLNode → Option String
  | .mk _ tx _ => tx

def XMLNode.children : XMLNode → List XMLNode
  | .mk _ _ cs => cs

/-! ### Typed extractor (cad_parser_xml.py extract_features) -/

/-- A record: attribute name to typed value, insertion ordered. -/
abbrev Record := List (String × Value)

/-- A feature collection: feature tag to list of records in document
order. -/
abbrev CADFeatures := List (String × List Record)

/-- Modelled from the spec: the error raised when an attribute node has no
text content.  The source calls sub_child.text.strip() and crashes on a
missing text (the spec names this failure MalformedInputError and directs
that it abort extraction). -/
inductive MalformedInputError where
  | noText : MalformedInputError
  deriving DecidableEq, Repr

instance [DecidableEq ε] [DecidableEq α] : DecidableEq (Except ε α)
  | .error x, .error y =>
    if h : x = y then .isTrue (congrArg Except.error h)
    else .isFalse (fun c => h (Except.error.inj c))
  | .error _, .ok _ => .isFalse (fun c => Except.noConfusion c)
  | .ok _, .error _ => .isFalse (fun c => Except.noConfusion c)
  | .ok x, .ok y =>
    if h : x = y then .isTrue (congrArg Except.ok h)
    else .isFalse (fun c => h (Except.ok.inj c))

/-- The inner loop of extract_features over the attribute nodes of one
feature node, building feature_details by dictionary assignment; fails if
an attribute node has no text. -/
def extractRecord : List XMLNode → Record → Except MalformedInputError Record
  | [], acc => .ok acc
  | a :: rest, acc =>
    match a.text with
    | none => .error .noText
    | some tx => extractRecord rest (dictInsert acc a.tag (classify (pyStrip tx)))

/-- The record extracted from one feature node. -/
def recordOf (c : XMLNode) : Except MalformedInputError Record :=
  extractRecord c.children []

/-- The outer loop of extract_features over the feature nodes. -/
def extractGo : List XMLNode → CADFeatures → Except MalformedInputError CADFeatures
  | [], acc => .ok acc
  | c :: rest, acc =>
    match recordOf c with
    | .error e => .error e
    | .ok fd => extractGo rest (featAppend acc c.tag fd)

/-- Source extract_features: walk the direct children of the root,
classify every attribute text, group records by feature tag in document
order. -/
def extract_features (root : XMLNode) : Except MalformedInputError CADFeatures :=
  extractGo root.children []

/-! ### Structural differ (cad_parser_xml.py compare_features) -/

/-- Python equality on float values: finite values compare numerically,
infinities by sign, and NaN is unequal to everything including itself. -/
def pyFloatEq : PyFloat → PyFloat → Bool
  | .finite a, .finite b => a == b
  | .inf a, .inf b => a == b
  | _, _ => false

/-- Python equality on extracted values: numbers numerically, points
componentwise (dict equality), strings exactly; different shapes are never
equal. -/
def pyValEq : Value → Value → Bool
  | .num a, .num b => pyFloatEq a b
  | .point a b c, .point x y z => pyFloatEq a x && pyFloatEq b y && pyFloatEq c z
  | .text s, .text t => s == t
  | _, _ => false

/-- The inequality test cad1_detail[key] != value used by the differ. -/
def pyNe (a b : Value) : Bool := !(pyValEq a b)

/-- One old/new pair recorded for a changed field. -/
structure FieldChange where
  old : Value
  new : Value
  deriving DecidableEq, Repr

/-- One modification entry: the record identifier (its Name attribute, or
the string Unknown) and the changed fields. -/
structure ModEntry where
  name : Value
  fields : List (String × FieldChange)
  deriving DecidableEq, Repr

/-- The body of the changed_fields test for one target key and value:
record a change when the key is absent from the baseline record (old is
the sentinel N/A string) or its baseline value differs. -/
def changeForKey (cad1_detail : Record) (k : String) (v : Value) : Option FieldChange :=
  match dget cad1_detail k with
  | none => some { old := Value.text "N/A", new := v }
  | some old => if pyNe old v then some { old := old, new := v } else none

/-- The changed_fields dictionary for one positional pair of records:
the change test applied to every key of the target record. -/
def changedFields (cad1_detail cad2_detail : Record) : List (String × FieldChange) :=
  cad2_detail.filterMap (fun kv =>
    (changeForKey cad1_detail kv.1 kv.2).map (fun fc => (kv.1, fc)))

/-- The feature_modifications list for a tag present in both collections:
zip the target and baseline record lists positionally and emit one entry
per pair with a non-empty changed_fields, named by the target record. -/
def featureMods (cad1_list cad2_list : List Record) : List ModEntry :=
  (cad2_list.zip cad1_list).filterMap (fun p =>
    let cf := changedFields p.2 p.1
    if cf.isEmpty then none
    else some { name := (dget p.1 "Name").getD (Value.text "Unknown"), fields := cf })

/-- Entry of the additions dictionary for one target tag: the whole target
list when the tag is new, else the surplus trailing records when the
target list is longer. -/
def addForTag (cad1 : CADFeatures) (f : String) (l2 : List Record) : Option (List Record) :=
  if dmem cad1 f then
    let l1 := (dget cad1 f).getD []
    if l1.length < l2.length then some (l2.drop l1.length) else none
  else some l2

/-- Entry of the modifications dictionary for one target tag, when
non-empty. -/
def modsForTag (cad1 : CADFeatures) (f : String) (l2 : List Record) : Option (List ModEntry) :=
  if dmem cad1 f then
    let l1 := (dget cad1 f).getD []
    let fm := featureMods l1 l2
    if fm.isEmpty then none else some fm
  else none

/-- Entry of the removals dictionary for one baseline tag: the whole
baseline list when the tag is gone, else the surplus trailing records when
the baseline list is longer. -/
def remForTag (cad2 : CADFeatures) (f : String) (l1 : List Record) : Option (List Record) :=
  if dmem cad2 f then
    let l2 := (dget cad2 f).getD []
    if l2.length < l1.length then some (l1.drop l2.length) else none
  else some l1

/-- The difference report: the three result dictionaries. -/
structure FeatureDifferences where
  additions : List (String × List Record)
  modifications : List (String × List ModEntry)
  removals : List (String × List Record)
  deriving DecidableEq, Repr

/-- Source compare_features: one pass over the target collection filling
additions and modifications, one pass over the baseline collection filling
removals. -/
def compare_features (cad1 cad2 : CADFeatures) : FeatureDifferences :=
  { additions := cad2.filterMap (fun p => (addForTag cad1 p.1 p.2).map (fun v => (p.1, v))),
    modifications :=
      cad2.filterMap (fun p => (modsForTag cad1 p.1 p.2).map (fun v => (p.1, v))),
    removals := cad1.filterMap (fun p => (remForTag cad2 p.1 p.2).map (fun v => (p.1, v))) }

/-! ### Sibling CAM extractor (cam_parser_xml.py parse_cam_xml) -/

/-- Source TOOLSTYPELIST: child tags parsed as nested tool records. -/
def TOOLSTYPELIST : List String := ["TurningToolStandard", "Drill", "SpotDrill"]

/-- The literal tuple of attribute names converted with float by name in
parse_cam_xml. -/
def camNumericNames : List String :=
  ["Step", "SurfaceSpeed", "FeedRate", "Stock", "NoseRadius"]

/-- A value stored by the CAM extractor: a float (for the named numeric
attributes), a raw stripped string, or a nested tool record of raw
stripped strings. -/
inductive CAMValue where
  | num : PyFloat → CAMValue
  | str : String → CAMValue
  | tool : List (String × String) → CAMValue
  deriving DecidableEq, Repr

/-- A CAM operation record. -/
abbrev CAMRecord := List (String × CAMValue)

/-- The tool_info loop: every tool attribute text, stripped, stored as a
string; fails when a text is missing. -/
def parseToolInfo : List XMLNode → List (String × String) → Option (List (String × String))
  | [], acc => some acc
  | t :: rest, acc =>
    match t.text with
    | none => none
    | some tx => parseToolInfo rest (dictInsert acc t.tag (pyStrip tx))

/-- Processing of one attribute node of an operation by parse_cam_xml:
tool tags become nested tool records; attributes in the numeric name
tuple are converted with float (failing as float does); everything else
is stored as the raw stripped string. -/
def camAttr (op_details : CAMRecord) (a : XMLNode) : Option CAMRecord :=
  if TOOLSTYPELIST.contains a.tag then
    (parseToolInfo a.children []).map (fun ti => dictInsert op_details a.tag (CAMValue.tool ti))
  else
    match a.text with
    | none => none
    | some tx =>
      let t := pyStrip tx
      if camNumericNames.contains a.tag then
        (pyFloat? t).map (fun q => dictInsert op_details a.tag (CAMValue.num q))
      else some (dictInsert op_details a.tag (CAMValue.str t))

/-- The attribute loop of parse_cam_xml over one operation node. -/
def camAttrs : List XMLNode → CAMRecord → Option CAMRecord
  | [], acc => some acc
  | a :: rest, acc => (camAttr acc a).bind (fun acc2 => camAttrs rest acc2)

/-- The operation record extracted from one operation node. -/
def camRecordOf (op : XMLNode) : Option CAMRecord := camAttrs op.children []

/-- Source parse_cam_xml after the external file load: walk the direct
children of the root and group operation records by operation tag. -/
def parse_cam_xml (root : XMLNode) : Option (List (String × List CAMRecord)) :=
  camGo root.children []
where
  camGo : List XMLNode → List (String × List CAMRecord) →
      Option (List (String × List CAMRecord))
    | [], acc => some acc
    | op :: rest, acc =>
      (camRecordOf op).bind (fun od => camGo rest (featAppend acc op.tag od))

/-- The partial embedding of a CAD value into the CAM value space, used to
state that the CAM extractor follows the CAD classification contract: a
point has no CAM representation. -/
def camOfValue : Value → Option CAMValue
  | .num q => some (CAMValue.num q)
  | .text s => some (CAMValue.str s)
  | .point _ _ _ => none

/-! ### Well-formedness predicates (facts Python dictionaries guarantee) -/

/-- A float value that is not NaN. -/
def pfNoNaN : PyFloat → Bool
  | .nan => false
  | _ => true

/-- A value containing no NaN component. -/
def valNoNaN : Value → Bool
  | .num q => pfNoNaN q
  | .point a b c => pfNoNaN a && pfNoNaN b && pfNoNaN c
  | .text _ => true

/-- Well-formedness inherited from Python dictionaries: feature tags are
unique in a collection and attribute names are unique in every record. -/
abbrev WF (fs : CADFeatures) : Prop :=
  (fs.map Prod.fst).Nodup ∧ ∀ p ∈ fs, ∀ r ∈ p.2, ((r : Record).map Prod.fst).Nodup

/-- No NaN value anywhere in a collection. -/
abbrev NoNaN (fs : CADFeatures) : Prop :=
  ∀ p ∈ fs, ∀ r ∈ p.2, ∀ kv ∈ (r : Record), valNoNaN kv.2 = true

/-- Append a batch of records to an optional tag entry: absent stays
absent when the batch is empty, otherwise the records are appended to the
existing list (an absent entry counts as empty). -/
def optApp (o : Option (List Record)) (rs : List Record) : Option (List Record) :=
  if rs.isEmpty then o else some (o.getD [] ++ rs)

/-! ### Dictionary lemmas -/

theorem dget_nil {α : Type _} (k : String) : dget ([] : List (String × α)) k = none := rfl

theorem dget_cons {α : Type _} {a : String} {x : α} {d : List (String × α)} {k : String} :
    dget ((a, x) :: d) k = if a == k then some x else dget d k := by
  cases h : (a == k) <;> simp [dget, List.find?_cons, h]

theorem dmem_cons {α : Type _} {a : String} {x : α} {d : List (String × α)} {k : String} :
    dmem ((a, x) :: d) k = (a == k || dmem d k) := by
  simp [dmem]

theorem dmem_eq_isSome {α : Type _} (d : List (String × α)) (k : String) :
    dmem d k = (dget d k).isSome := by
  induction d with
  | nil => rfl
  | cons p rest ih =>
    obtain ⟨a, x⟩ := p
    cases h : (a == k) <;> simp [dmem_cons, dget_cons, h, ih]

theorem dget_append {α : Type _} (d1 d2 : List (String × α)) (k : String) :
    dget (d1 ++ d2) k =
      match dget d1 k with
      | some v => some v
      | none => dget d2 k := by
  induction d1 with
  | nil => simp [dget_nil]
  | cons p rest ih =>
    obtain ⟨a, x⟩ := p
    cases h : (a == k) <;> simp [dget_cons, h, ih]

theorem dget_eq_some_of_mem {α : Type _} {d : List (String × α)}
    (hnd : (d.map Prod.fst).Nodup) {k : String} {v : α} (hm : (k, v) ∈ d) :
    dget d k = some v := by
  induction d with
  | nil => cases hm
  | cons p rest ih =>
    obtain ⟨a, x⟩ := p
    simp only [List.map_cons, List.nodup_cons] at hnd
    rcases List.mem_cons.mp hm with h | h
    · injection h with h1 h2
      subst h1; subst h2
      simp [dget_cons]
    · have hak : (a == k) = false := by
        refine beq_eq_false_iff_ne.mpr (fun e => hnd.1 ?_)
        subst e
        exact List.mem_map.mpr ⟨(a, v), h, rfl⟩
      simp [dget_cons, hak, ih hnd.2 h]

theorem dget_filterMap_eq_none {α β : Type _} {d : List (String × α)}
    (g : String → α → Option β) {k : String} (h : ∀ p ∈ d, p.1 ≠ k) :
    dget (d.filterMap (fun p => (g p.1 p.2).map (fun v => (p.1, v)))) k = none := by
  induction d with
  | nil => rfl
  | cons p rest ih =>
    have hp : p.1 ≠ k := h p (List.mem_cons_self p rest)
    have hbeq : (p.1 == k) = false := beq_eq_false_iff_ne.mpr hp
    have ih2 := ih (fun q hq => h q (List.mem_cons_of_mem p hq))
    cases hg : g p.1 p.2 <;> simp [List.filterMap_cons, hg, dget_cons, hbeq, ih2]

theorem dget_filterMap {α β : Type _} {d : List (String × α)} (g : String → α → Option β)
    (hnd : (d.map Prod.fst).Nodup) (k : String) :
    dget (d.filterMap (fun p => (g p.1 p.2).map (fun v => (p.1, v)))) k
      = (dget d k).bind (g k) := by
  induction d with
  | nil => rfl
  | cons p rest ih =>
    obtain ⟨a, x⟩ := p
    simp only [List.map_cons, List.nodup_cons] at hnd
    cases hk : (a == k)
    · cases hg : g a x <;>
        simp [List.filterMap_cons, hg, dget_cons, hk, ih hnd.2]
    · have hak : a = k := beq_iff_eq.mp hk
      subst hak
      have hnone : dget (rest.filterMap (fun p => (g p.1 p.2).map (fun v => (p.1, v)))) a
          = none := by
        refine dget_filterMap_eq_none g (fun q hq hqa => hnd.1 ?_)
        subst hqa
        exact List.mem_map.mpr ⟨q, hq, rfl⟩
      cases hg : g a x <;>
        simp [List.filterMap_cons, hg, dget_cons, hk, hnone]

theorem dget_map_keyed {α β : Type _} (d : List (String × α)) (u : String → α → β)
    (k : String) :
    dget (d.map (fun p => (p.1, u p.1 p.2))) k = (dget d k).map (u k) := by
  induction d with
  | nil => rfl
  | cons p rest ih =>
    obtain ⟨a, x⟩ := p
    cases hat : (a == k)
    · simp [dget_cons, hat, ih]
    · have hak : a = k := beq_iff_eq.mp hat
      subst hak
      simp [dget_cons, hat]

theorem valUpdate_eq_keyed {α : Type _} (tag : String) (f : α → α) :
    (fun p : String × α => if p.1 == tag then (p.1, f p.2) else p)
      = fun p : String × α => (p.1, if p.1 == tag then f p.2 else p.2) := by
  funext p
  by_cases h : (p.1 == tag) = true <;> simp [h]

theorem dget_map_valUpdate {α : Type _} (d : List (String × α)) (tag k : String)
    (f : α → α) :
    dget (d.map (fun p => if p.1 == tag then (p.1, f p.2) else p)) k
      = if k = tag then (dget d tag).map f else dget d k := by
  rw [valUpdate_eq_keyed, dget_map_keyed d (fun a v => if a == tag then f v else v) k]
  by_cases hk : k = tag
  · subst hk
    simp
  · have hne : (k == tag) = false := beq_eq_false_iff_ne.mpr hk
    cases hdg : dget d k <;> simp [hne, hk, hdg]

theorem dget_dictInsert {α : Type _} (d : List (String × α)) (k k' : String) (v : α) :
    dget (dictInsert d k v) k' = if k' = k then some v else dget d k' := by
  unfold dictInsert
  cases hm : dmem d k
  · rw [dmem_eq_isSome] at hm
    have hnone : dget d k = none := by
      cases hdg : dget d k
      · rfl
      · rw [hdg] at hm; cases hm
    simp only [Bool.false_eq_true, if_false]
    rw [dget_append]
    by_cases hk : k' = k
    · subst hk
      simp [hnone, dget_cons]
    · have hne : (k == k') = false := beq_eq_false_iff_ne.mpr (fun e => hk e.symm)
      cases hdg : dget d k' <;> simp [hdg, dget_cons, hne, hk, dget_nil]
  · simp only [if_true]
    rw [dget_map_valUpdate d k k' (fun _ => v)]
    by_cases hk : k' = k
    · subst hk
      rw [dmem_eq_isSome] at hm
      cases hdg : dget d k'
      · rw [hdg] at hm; cases hm
      · simp [hdg]
    · simp [hk]

theorem map_fst_of_valUpdate {α : Type _} (d : List (String × α)) (tag : String)
    (f : α → α) :
    (d.map (fun p => if p.1 == tag then (p.1, f p.2) else p)).map Prod.fst
      = d.map Prod.fst := by
  rw [valUpdate_eq_keyed, List.map_map]
  have hc : (Prod.fst ∘ fun p : String × α => (p.1, if p.1 == tag then f p.2 else p.2))
      = Prod.fst := funext fun p => rfl
  rw [hc]

theorem nodup_keys_dictInsert {α : Type _} {d : List (String × α)}
    (h : (d.map Prod.fst).Nodup) (k : String) (v : α) :
    ((dictInsert d k v).map Prod.fst).Nodup := by
  unfold dictInsert
  cases hm : dmem d k
  · simp only [Bool.false_eq_true, if_false]
    have hk : k ∉ d.map Prod.fst := by
      intro hin
      obtain ⟨p, hp, he⟩ := List.mem_map.mp hin
      have hdm : dmem d k = true :=
        List.any_eq_true.mpr ⟨p, hp, by simp [beq_iff_eq, he]⟩
      rw [hdm] at hm; cases hm
    simp only [List.map_append, List.map_cons, List.map_nil]
    rw [List.nodup_append]
    refine ⟨h, List.nodup_singleton k, fun a ha hb => ?_⟩
    rw [List.mem_singleton] at hb
    exact hk (hb ▸ ha)
  · simp only [if_true]
    rw [map_fst_of_valUpdate d k (fun _ => v)]
    exact h

theorem dget_featAppend {α : Type _} (d : List (String × List α)) (tag k : String)
    (x : α) :
    dget (featAppend d tag x) k =
      if k = tag then some ((dget d tag).getD [] ++ [x]) else dget d k := by
  unfold featAppend
  cases hm : dmem d tag
  · rw [dmem_eq_isSome] at hm
    have hnone : dget d tag = none := by
      cases hdg : dget d tag
      · rfl
      · rw [hdg] at hm; cases hm
    simp only [Bool.false_eq_true, if_false]
    rw [dget_append]
    by_cases hk : k = tag
    · subst hk
      simp [hnone, dget_cons]
    · have hne : (tag == k) = false := beq_eq_false_iff_ne.mpr (fun e => hk e.symm)
      cases hdg : dget d k <;> simp [hdg, dget_cons, hne, hk, dget_nil]
  · simp only [if_true]
    rw [dget_map_valUpdate d tag k (fun l => l ++ [x])]
    by_cases hk : k = tag
    · subst hk
      rw [dmem_eq_isSome] at hm
      cases hdg : dget d k
      · rw [hdg] at hm; cases hm
      · simp [hdg]
    · simp [hk]

theorem featAppend_values_ne_nil {α : Type _} {d : List (String × List α)}
    (h : ∀ p ∈ d, p.2 ≠ []) (tag : String) (x : α) :
    ∀ p ∈ featAppend d tag x, p.2 ≠ [] := by
  unfold featAppend
  cases dmem d tag
  · simp only [Bool.false_eq_true, if_false]
    intro p hp
    rcases List.mem_append.mp hp with hin | hin
    · exact h p hin
    · rcases List.mem_singleton.mp hin with rfl
      simp
  · simp only [if_true]
    intro p hp
    obtain ⟨q, hq, rfl⟩ := List.mem_map.mp hp
    cases hqt : (q.1 == tag) <;> simp [hqt, h q hq]

theorem zip_self {γ : Type _} (l : List γ) : l.zip l = l.map (fun x => (x, x)) := by
  induction l with
  | nil => rfl
  | cons a rest ih => simp [List.zip_cons_cons, ih]

theorem filterMap_guard {γ δ : Type _} (l : List γ) (q : γ → Bool) (f : γ → δ) :
    l.filterMap (fun x => if q x then none else some (f x))
      = (l.filter (fun x => !q x)).map f := by
  induction l with
  | nil => rfl
  | cons a rest ih =>
    cases hq : q a <;> simp [List.filterMap_cons, List.filter_cons, hq, ih]

theorem pyFloatEq_self {q : PyFloat} (h : pfNoNaN q = true) : pyFloatEq q q = true := by
  cases q <;> simp_all [pyFloatEq, pfNoNaN]

theorem pyNe_self {v : Value} (h : valNoNaN v = true) : pyNe v v = false := by
  cases v <;> simp_all [pyNe, pyValEq, valNoNaN, pyFloatEq_self]

theorem changedFields_self {r : Record} (hnd : (r.map Prod.fst).Nodup)
    (hnn : ∀ kv ∈ r, valNoNaN kv.2 = true) : changedFields r r = [] := by
  unfold changedFields
  rw [List.filterMap_eq_nil_iff]
  intro kv hkv
  have hg : dget r kv.1 = some kv.2 := dget_eq_some_of_mem hnd hkv
  simp [changeForKey, hg, pyNe_self (hnn kv hkv)]

/-! ### Extraction lemmas -/

theorem find?_append_cases {γ : Type _} (l1 l2 : List γ) (p : γ → Bool) :
    (l1 ++ l2).find? p =
      match l1.find? p with
      | some x => some x
      | none => l2.find? p := by
  induction l1 with
  | nil => simp
  | cons a rest ih => cases hp : p a <;> simp [List.find?_cons, hp, ih]

theorem extractRecord_error_of_missing {attrs : List XMLNode} (acc : Record)
    (h : ∃ a ∈ attrs, a.text = none) :
    extractRecord attrs acc = .error MalformedInputError.noText := by
  induction attrs generalizing acc with
  | nil => obtain ⟨a, ha, _⟩ := h; cases ha
  | cons a rest ih =>
    obtain ⟨b, hb, hbt⟩ := h
    rcases List.mem_cons.mp hb with rfl | hbr
    · simp [extractRecord, hbt]
    · cases hat : a.text
      · simp [extractRecord, hat]
      · simp only [extractRecord, hat]
        exact ih _ ⟨b, hbr, hbt⟩

theorem extractRecord_dget (attrs : List XMLNode) (acc r : Record)
    (h : extractRecord attrs acc = .ok r) (k : String) :
    dget r k =
      match attrs.reverse.find? (fun a => a.tag == k) with
      | some a => some (classify (pyStrip (a.text.getD "")))
      | none => dget acc k := by
  induction attrs generalizing acc with
  | nil =>
    simp only [extractRecord] at h
    injection h with h1
    subst h1
    simp
  | cons a rest ih =>
    cases hat : a.text with
    | none => simp [extractRecord, hat] at h
    | some tx =>
      have h2 : extractRecord rest (dictInsert acc a.tag (classify (pyStrip tx))) = .ok r := by
        simpa only [extractRecord, hat] using h
      have ihh := ih _ h2
      rw [List.reverse_cons, find?_append_cases]
      cases hf : rest.reverse.find? (fun b => b.tag == k) with
      | some b =>
        rw [hf] at ihh
        exact ihh
      | none =>
        rw [hf] at ihh
        rw [ihh, dget_dictInsert]
        cases hak : (a.tag == k)
        · have : ¬ k = a.tag := fun e => by
            rw [beq_eq_false_iff_ne] at hak
            exact hak e.symm
          simp [List.find?_cons, hak, this]
        · have hek : a.tag = k := beq_iff_eq.mp hak
          simp [List.find?_cons, hak, hek, hat]

theorem extractRecord_nodup (attrs : List XMLNode) (acc r : Record)
    (h : extractRecord attrs acc = .ok r) (hacc : (acc.map Prod.fst).Nodup) :
    (r.map Prod.fst).Nodup := by
  induction attrs generalizing acc with
  | nil =>
    simp only [extractRecord] at h
    injection h with h1
    subst h1
    exact hacc
  | cons a rest ih =>
    cases hat : a.text with
    | none => simp [extractRecord, hat] at h
    | some tx =>
      have h2 : extractRecord rest (dictInsert acc a.tag (classify (pyStrip tx))) = .ok r := by
        simpa only [extractRecord, hat] using h
      exact ih _ h2 (nodup_keys_dictInsert hacc _ _)

theorem extractGo_error (cs : List XMLNode) (acc : CADFeatures)
    (h : ∃ c ∈ cs, ∃ a ∈ c.children, a.text = none) :
    extractGo cs acc = .error MalformedInputError.noText := by
  induction cs generalizing acc with
  | nil => obtain ⟨c, hc, _⟩ := h; cases hc
  | cons c rest ih =>
    obtain ⟨b, hb, hbad⟩ := h
    rcases List.mem_cons.mp hb with rfl | hbr
    · have hrc : recordOf b = .error MalformedInputError.noText :=
        extractRecord_error_of_missing [] hbad
      simp [extractGo, hrc]
    · cases hrc : recordOf c with
      | error e =>
        cases e
        simp [extractGo, hrc]
      | ok fd =>
        simp only [extractGo, hrc]
        exact ih _ ⟨b, hbr, hbad⟩

theorem extractGo_dget (cs : List XMLNode) (acc fs : CADFeatures)
    (h : extractGo cs acc = .ok fs) (t : String) :
    ∃ rs : List Record,
      (cs.filter (fun c => c.tag == t)).map recordOf = rs.map Except.ok ∧
      dget fs t = optApp (dget acc t) rs := by
  induction cs generalizing acc with
  | nil =>
    simp only [extractGo] at h
    injection h with h1
    subst h1
    exact ⟨[], by simp, by simp [optApp]⟩
  | cons c rest ih =>
    cases hrc : recordOf c with
    | error e => simp [extractGo, hrc] at h
    | ok fd =>
      have h2 : extractGo rest (featAppend acc c.tag fd) = .ok fs := by
        simpa only [extractGo, hrc] using h
      obtain ⟨rs, hmap, hdg⟩ := ih _ h2
      cases hct : (c.tag == t)
      · refine ⟨rs, ?_, ?_⟩
        · simp [List.filter_cons, hct, hmap]
        · rw [hdg, dget_featAppend]
          have hne : ¬ t = c.tag := fun e => by
            rw [beq_eq_false_iff_ne] at hct
            exact hct e.symm
          rw [if_neg hne]
      · have hct2 : c.tag = t := beq_iff_eq.mp hct
        refine ⟨fd :: rs, ?_, ?_⟩
        · simp [List.filter_cons, hct, hmap, hrc]
        · rw [hdg, dget_featAppend, if_pos hct2.symm]
          subst hct2
          unfold optApp
          cases rs with
          | nil => simp
          | cons r rs2 => cases hdga : dget acc c.tag <;> simp [hdga]

theorem extractGo_values_ne_nil (cs : List XMLNode) (acc fs : CADFeatures)
    (h : extractGo cs acc = .ok fs) (hacc : ∀ p ∈ acc, p.2 ≠ []) :
    ∀ p ∈ fs, p.2 ≠ [] := by
  induction cs generalizing acc with
  | nil =>
    simp only [extractGo] at h
    injection h with h1
    subst h1
    exact hacc
  | cons c rest ih =>
    cases hrc : recordOf c with
    | error e => simp [extractGo, hrc] at h
    | ok fd =>
      have h2 : extractGo rest (featAppend acc c.tag fd) = .ok fs := by
        simpa only [extractGo, hrc] using h
      exact ih _ h2 (featAppend_values_ne_nil hacc c.tag fd)

/-! ### Differ lemmas -/

theorem dget_none_keys {α : Type _} {d : List (String × α)} {k : String}
    (h : dget d k = none) : ∀ p ∈ d, p.1 ≠ k := by
  intro p hp e
  have hdm : dmem d k = true := List.any_eq_true.mpr ⟨p, hp, by simp [beq_iff_eq, e]⟩
  rw [dmem_eq_isSome, h] at hdm
  cases hdm

theorem dmem_of_dget_some {α : Type _} {d : List (String × α)} {k : String} {v : α}
    (h : dget d k = some v) : dmem d k = true := by
  rw [dmem_eq_isSome, h]
  rfl

theorem dget_compare_additions (cad1 cad2 : CADFeatures)
    (hw2 : (cad2.map Prod.fst).Nodup) (f : String) :
    dget (compare_features cad1 cad2).additions f = (dget cad2 f).bind (addForTag cad1 f) :=
  dget_filterMap (addForTag cad1) hw2 f

theorem dget_compare_modifications (cad1 cad2 : CADFeatures)
    (hw2 : (cad2.map Prod.fst).Nodup) (f : String) :
    dget (compare_features cad1 cad2).modifications f
      = (dget cad2 f).bind (modsForTag cad1 f) :=
  dget_filterMap (modsForTag cad1) hw2 f

theorem dget_compare_removals (cad1 cad2 : CADFeatures)
    (hw1 : (cad1.map Prod.fst).Nodup) (f : String) :
    dget (compare_features cad1 cad2).removals f = (dget cad1 f).bind (remForTag cad2 f) :=
  dget_filterMap (remForTag cad2) hw1 f

theorem dget_compare_removals_none (cad1 cad2 : CADFeatures) (f : String)
    (h : dget cad1 f = none) :
    dget (compare_features cad1 cad2).removals f = none :=
  dget_filterMap_eq_none (remForTag cad2) (dget_none_keys h)

theorem featureMods_eq (l1 l2 : List Record) :
    featureMods l1 l2
      = ((l2.zip l1).filter (fun p => !(changedFields p.2 p.1).isEmpty)).map
          (fun p => { name := (dget p.1 "Name").getD (Value.text "Unknown"),
                      fields := changedFields p.2 p.1 }) :=
  filterMap_guard (l2.zip l1) (fun p => (changedFields p.2 p.1).isEmpty)
    (fun p => ({ name := (dget p.1 "Name").getD (Value.text "Unknown"),
                 fields := changedFields p.2 p.1 } : ModEntry))

theorem dget_changedFields (r1 r2 : Record) (h2 : (r2.map Prod.fst).Nodup) (k : String) :
    dget (changedFields r1 r2) k = (dget r2 k).bind (changeForKey r1 k) :=
  dget_filterMap (changeForKey r1) h2 k

example :
    extract_features
      (XMLNode.mk "Component" none
        [XMLNode.mk "HOLES_ALONG_SURFACE" none
          [XMLNode.mk "Name" (some "HOLES_ALONG_SURFACE(1of1)") [],
           XMLNode.mk "Origin" (some "119.55 69.0222 -32") [],
           XMLNode.mk "Diameter" (some "3") []]]) =
    Except.ok
      [("HOLES_ALONG_SURFACE",
        [[("Name", Value.text "HOLES_ALONG_SURFACE(1of1)"),
          ("Origin", Value.point (PyFloat.finite (mkRat 2391 20))
            (PyFloat.finite (mkRat 345111 5000)) (PyFloat.finite (-32))),
          ("Diameter", Value.num (PyFloat.finite 3))]])] := by decide

example :
    compare_features
      [("H", [[("Name", Value.text "Hole1"), ("Diameter", Value.num (PyFloat.finite 3))]])]
      [("H", [[("Name", Value.text "Hole1"), ("Diameter", Value.num (PyFloat.finite 5))]])] =
    { additions := [],
      modifications :=
        [("H", [{ name := Value.text "Hole1",
                  fields := [("Diameter",
                    { old := Value.num (PyFloat.finite 3),
                      new := Value.num (PyFloat.finite 5) })] }])],
      removals := [] } := by decide

example :
    camAttr [] (XMLNode.mk "Depth" (some "3") []) =
      some [("Depth", CAMValue.str "3")] := by decide

example :
    camAttr [] (XMLNode.mk "Step" (some "2.5") []) =
      some [("Step", CAMValue.num (PyFloat.finite (mkRat 5 2)))] := by decide

example :
    camAttr [] (XMLNode.mk "Drill" none
        [XMLNode.mk "Name" (some "D4") [], XMLNode.mk "Diameter" (some "4") []]) =
      some [("Drill", CAMValue.tool [("Name", "D4"), ("Diameter", "4")])] := by decide

/-! ### Claim theorems -/

/-- C1: classification of an attribute raw text, after trimming the
surrounding whitespace, is a total function returning exactly one of
Number, Point or Text, deciding in this fixed order: a full float parse
gives Number; else a whitespace split into exactly three float tokens
gives Point with x, y, z in token order; else Text holds the trimmed
string verbatim.  Exactly one disjunct holds and the function never
fails, being a total Lean function. -/
theorem classify_total_ordered (s : String) :
    (∃ q, pyFloat? (pyStrip s) = some q ∧ classify (pyStrip s) = Value.num q) ∨
    (pyFloat? (pyStrip s) = none ∧
      ∃ a b c, (pySplit (pyStrip s)).map pyFloat? = [some a, some b, some c] ∧
        classify (pyStrip s) = Value.point a b c) ∨
    (pyFloat? (pyStrip s) = none ∧
      (¬ ∃ a b c, (pySplit (pyStrip s)).map pyFloat? = [some a, some b, some c]) ∧
      classify (pyStrip s) = Value.text (pyStrip s)) := by
  cases hq : pyFloat? (pyStrip s) with
  | some q =>
    left
    have hn : is_number (pyStrip s) = true := by simp [is_number, hq]
    exact ⟨q, rfl, by simp [classify, hn, pyFloat, hq]⟩
  | none =>
    have hn : is_number (pyStrip s) = false := by simp [is_number, hq]
    cases hp : is_point (pyStrip s) with
    | true =>
      right; left
      refine ⟨rfl, ?_⟩
      have hp2 := hp
      unfold is_point at hp2
      rw [Bool.and_eq_true] at hp2
      have hlen : (pySplit (pyStrip s)).length = 3 := by
        have := hp2.1
        simpa using this
      obtain ⟨a, b, c, habc⟩ := List.length_eq_three.mp hlen
      have hall := hp2.2
      rw [habc, List.all_cons, List.all_cons, List.all_cons] at hall
      simp only [Bool.and_eq_true, List.all_nil] at hall
      obtain ⟨qa, hqa⟩ := Option.isSome_iff_exists.mp hall.1
      obtain ⟨qb, hqb⟩ := Option.isSome_iff_exists.mp hall.2.1
      obtain ⟨qc, hqc⟩ := Option.isSome_iff_exists.mp hall.2.2.1
      refine ⟨qa, qb, qc, ?_, ?_⟩
      · rw [habc]
        simp [hqa, hqb, hqc]
      · simp [classify, hn, hp, parse_point, habc, pyFloat, hqa, hqb, hqc]
    | false =>
      right; right
      refine ⟨rfl, ?_, by simp [classify, hn, hp]⟩
      rintro ⟨a, b, c, habc⟩
      have hlen : (pySplit (pyStrip s)).length = 3 := by
        have := congrArg List.length habc
        simpa using this
      have hall : (pySplit (pyStrip s)).all is_number = true := by
        rw [List.all_eq_true]
        intro x hx
        have hmem : pyFloat? x ∈ (pySplit (pyStrip s)).map pyFloat? :=
          List.mem_map_of_mem pyFloat? hx
        rw [habc] at hmem
        simp only [List.mem_cons, List.not_mem_nil, or_false] at hmem
        rcases hmem with he | he | he <;> simp [is_number, he]
      have hpt : is_point (pyStrip s) = true := by
        unfold is_point
        rw [Bool.and_eq_true]
        exact ⟨by simp [hlen], hall⟩
      rw [hpt] at hp
      cases hp

/-- C2 counterexample: the collection holding the single record with the
NaN number value, which extraction really produces from the text nan, is
reported by diff against itself with a non-empty modifications table,
because the float inequality test of the differ holds on NaN compared to
itself. -/
theorem diff_self_nan_not_empty :
    extract_features (XMLNode.mk "root" none
        [XMLNode.mk "HOLE" none [XMLNode.mk "Depth" (some "nan") []]]) =
      Except.ok [("HOLE", [[("Depth", Value.num PyFloat.nan)]])] ∧
    (compare_features [("HOLE", [[("Depth", Value.num PyFloat.nan)]])]
        [("HOLE", [[("Depth", Value.num PyFloat.nan)]])]).modifications
      = [("HOLE", [{ name := Value.text "Unknown",
                     fields := [("Depth",
                       { old := Value.num PyFloat.nan,
                         new := Value.num PyFloat.nan })] }])] ∧
    ((compare_features [("HOLE", [[("Depth", Value.num PyFloat.nan)]])]
        [("HOLE", [[("Depth", Value.num PyFloat.nan)]])]).modifications).isEmpty
      = false := by
  refine ⟨by decide, by decide, by decide⟩

/-- C2 (amended): for every FeatureCollection X whose tag keys and
per-record attribute keys are duplicate free (as Python dictionaries
guarantee) and which contains no NaN number value, diff(X, X) yields
empty additions, empty modifications and empty removals. -/
theorem diff_self_empty (X : CADFeatures) (hw : WF X) (hn : NoNaN X) :
    compare_features X X = { additions := [], modifications := [], removals := [] } := by
  obtain ⟨hk, hr⟩ := hw
  have hdg : ∀ p ∈ X, dget X p.1 = some p.2 := by
    intro p hp
    obtain ⟨f, l⟩ := p
    exact dget_eq_some_of_mem hk hp
  have hdm : ∀ p ∈ X, dmem X p.1 = true := by
    intro p hp
    rw [dmem_eq_isSome, hdg p hp]
    rfl
  have e1 : (compare_features X X).additions = [] := by
    show X.filterMap (fun p => (addForTag X p.1 p.2).map (fun v => (p.1, v))) = []
    rw [List.filterMap_eq_nil_iff]
    intro p hp
    simp [addForTag, hdm p hp, hdg p hp]
  have e3 : (compare_features X X).removals = [] := by
    show X.filterMap (fun p => (remForTag X p.1 p.2).map (fun v => (p.1, v))) = []
    rw [List.filterMap_eq_nil_iff]
    intro p hp
    simp [remForTag, hdm p hp, hdg p hp]
  have e2 : (compare_features X X).modifications = [] := by
    show X.filterMap (fun p => (modsForTag X p.1 p.2).map (fun v => (p.1, v))) = []
    rw [List.filterMap_eq_nil_iff]
    intro p hp
    have hfm : featureMods p.2 p.2 = [] := by
      rw [featureMods_eq, zip_self, List.filter_map]
      have hnilf : (p.2.filter
          ((fun q => !(changedFields q.2 q.1).isEmpty) ∘ fun x => (x, x))) = [] := by
        rw [List.filter_eq_nil_iff]
        intro r hrm
        have hcf : changedFields r r = [] :=
          changedFields_self (hr p hp r hrm) (hn p hp r hrm)
        simp [Function.comp, hcf]
      rw [hnilf]
      rfl
    simp [modsForTag, hdm p hp, hdg p hp, hfm]
  have heta : compare_features X X =
      { additions := (compare_features X X).additions,
        modifications := (compare_features X X).modifications,
        removals := (compare_features X X).removals } := rfl
  rw [heta, e1, e2, e3]

/-- C2 witness: diff of a concrete NaN-free collection against itself is
the empty report. -/
theorem diff_self_empty_witness :
    compare_features
      [("OUTER_DIAMETER", [[("Name", Value.text "OD1"),
        ("Diameter", Value.num (PyFloat.finite 10))]])]
      [("OUTER_DIAMETER", [[("Name", Value.text "OD1"),
        ("Diameter", Value.num (PyFloat.finite 10))]])]
      = { additions := [], modifications := [], removals := [] } :=
  diff_self_empty
    [("OUTER_DIAMETER", [[("Name", Value.text "OD1"),
      ("Diameter", Value.num (PyFloat.finite 10))]])]
    (by refine ⟨by decide, ?_⟩; decide) (by decide)

/-- C3: extraction fails, with the error the spec names
MalformedInputError, whenever any attribute node of the input tree has no
text content; the failure propagates out of extract_features, so no
partial FeatureCollection is returned. -/
theorem extract_aborts_on_missing_text (root : XMLNode)
    (h : ∃ c ∈ root.children, ∃ a ∈ c.children, a.text = none) :
    extract_features root = Except.error MalformedInputError.noText :=
  extractGo_error root.children [] h

/-- C3 witness: a concrete document with a textless attribute node makes
extraction return the error. -/
theorem extract_aborts_on_missing_text_witness :
    extract_features (XMLNode.mk "root" none
        [XMLNode.mk "HOLE" none
          [XMLNode.mk "Name" (some "H1") [], XMLNode.mk "Depth" none []]])
      = Except.error MalformedInputError.noText :=
  extract_aborts_on_missing_text _ (by decide)

/-- C5: for a tag present in both collections, the modifications entry of
the report is exactly one entry per positionally paired record couple with
a non-empty change set, in pair order, named by the target record Name
attribute when present and by the string Unknown otherwise; and the change
set of a pair records, for every key of the target record, the old/new
pair exactly when the key is absent from the baseline record (with the
sentinel N/A as old) or carries a differing value there, while keys absent
from the target record are never recorded. -/
theorem diff_modification_entries (cad1 cad2 : CADFeatures)
    (hw2 : (cad2.map Prod.fst).Nodup) (f : String) (l1 l2 : List Record)
    (h1 : dget cad1 f = some l1) (h2 : dget cad2 f = some l2) :
    (dget (compare_features cad1 cad2).modifications f =
      (let M := ((l2.zip l1).filter (fun p => !(changedFields p.2 p.1).isEmpty)).map
          (fun p => ({ name := (dget p.1 "Name").getD (Value.text "Unknown"),
                       fields := changedFields p.2 p.1 } : ModEntry))
       if M = [] then none else some M)) ∧
    (∀ r1 r2 : Record, (r2.map Prod.fst).Nodup → ∀ k : String,
      dget (changedFields r1 r2) k =
        (dget r2 k).bind (fun v =>
          match dget r1 k with
          | none => some { old := Value.text "N/A", new := v }
          | some old => if pyNe old v then some { old := old, new := v } else none)) := by
  constructor
  · rw [dget_compare_modifications cad1 cad2 hw2 f, h2, Option.some_bind]
    have hm : dmem cad1 f = true := dmem_of_dget_some h1
    show modsForTag cad1 f l2 = _
    unfold modsForTag
    rw [hm, if_pos rfl, h1]
    simp only [Option.getD_some]
    rw [featureMods_eq]
    cases hfl : ((l2.zip l1).filter (fun p => !(changedFields p.2 p.1).isEmpty)) <;>
      simp [hfl]
  · intro r1 r2 hr2 k
    rw [dget_changedFields r1 r2 hr2 k]
    rfl

/-- C5 witness: the spec field-change example, a Diameter changed from 3
to 5 on the record named Hole1. -/
theorem diff_modification_entries_witness :
    dget (compare_features
        [("H", [[("Name", Value.text "Hole1"),
                 ("Diameter", Value.num (PyFloat.finite 3))]])]
        [("H", [[("Name", Value.text "Hole1"),
                 ("Diameter", Value.num (PyFloat.finite 5))]])]).modifications "H"
      = some [{ name := Value.text "Hole1",
                fields := [("Diameter",
                  { old := Value.num (PyFloat.finite 3),
                    new := Value.num (PyFloat.finite 5) })] }] := by
  have h := (diff_modification_entries
    [("H", [[("Name", Value.text "Hole1"), ("Diameter", Value.num (PyFloat.finite 3))]])]
    [("H", [[("Name", Value.text "Hole1"), ("Diameter", Value.num (PyFloat.finite 5))]])]
    (by decide) "H"
    [[("Name", Value.text "Hole1"), ("Diameter", Value.num (PyFloat.finite 3))]]
    [[("Name", Value.text "Hole1"), ("Diameter", Value.num (PyFloat.finite 5))]]
    (by decide) (by decide)).1
  rw [h]
  decide

/-- C6: a tag only in the target collection contributes its whole record
list as an addition and appears in neither modifications nor removals; a
tag only in the baseline contributes its whole list as a removal; for a
tag in both, the surplus trailing records of the longer list are
additions when the target list is longer and removals when the baseline
list is longer. -/
theorem diff_tag_level_behaviour (cad1 cad2 : CADFeatures)
    (hw1 : (cad1.map Prod.fst).Nodup) (hw2 : (cad2.map Prod.fst).Nodup) (f : String) :
    (∀ l2, dget cad1 f = none → dget cad2 f = some l2 →
      dget (compare_features cad1 cad2).additions f = some l2 ∧
      dget (compare_features cad1 cad2).modifications f = none ∧
      dget (compare_features cad1 cad2).removals f = none) ∧
    (∀ l1, dget cad2 f = none → dget cad1 f = some l1 →
      dget (compare_features cad1 cad2).removals f = some l1) ∧
    (∀ l1 l2, dget cad1 f = some l1 → dget cad2 f = some l2 →
      (l1.length < l2.length →
        dget (compare_features cad1 cad2).additions f = some (l2.drop l1.length)) ∧
      (l2.length < l1.length →
        dget (compare_features cad1 cad2).removals f = some (l1.drop l2.length))) := by
  refine ⟨?_, ?_, ?_⟩
  · intro l2 h1 h2
    have hm : dmem cad1 f = false := by rw [dmem_eq_isSome, h1]; rfl
    refine ⟨?_, ?_, dget_compare_removals_none cad1 cad2 f h1⟩
    · rw [dget_compare_additions cad1 cad2 hw2 f, h2, Option.some_bind]
      simp [addForTag, hm]
    · rw [dget_compare_modifications cad1 cad2 hw2 f, h2, Option.some_bind]
      simp [modsForTag, hm]
  · intro l1 h2 h1
    have hm : dmem cad2 f = false := by rw [dmem_eq_isSome, h2]; rfl
    rw [dget_compare_removals cad1 cad2 hw1 f, h1, Option.some_bind]
    simp [remForTag, hm]
  · intro l1 l2 h1 h2
    have hm1 : dmem cad1 f = true := dmem_of_dget_some h1
    have hm2 : dmem cad2 f = true := dmem_of_dget_some h2
    constructor
    · intro hlt
      rw [dget_compare_additions cad1 cad2 hw2 f, h2, Option.some_bind]
      simp [addForTag, hm1, h1, hlt]
    · intro hlt
      rw [dget_compare_removals cad1 cad2 hw1 f, h1, Option.some_bind]
      simp [remForTag, hm2, h2, hlt]

/-- C6 witness: a new tag N with two records is a whole-tag addition and
is absent from modifications and removals. -/
theorem diff_tag_level_behaviour_witness :
    dget (compare_features [("OLD", [[("Name", Value.text "o")]])]
        [("N", [[("Name", Value.text "a")], [("Name", Value.text "b")]])]).additions "N"
      = some [[("Name", Value.text "a")], [("Name", Value.text "b")]] ∧
    dget (compare_features [("OLD", [[("Name", Value.text "o")]])]
        [("N", [[("Name", Value.text "a")], [("Name", Value.text "b")]])]).modifications "N"
      = none ∧
    dget (compare_features [("OLD", [[("Name", Value.text "o")]])]
        [("N", [[("Name", Value.text "a")], [("Name", Value.text "b")]])]).removals "N"
      = none :=
  (diff_tag_level_behaviour [("OLD", [[("Name", Value.text "o")]])]
    [("N", [[("Name", Value.text "a")], [("Name", Value.text "b")]])]
    (by decide) (by decide) "N").1
    [[("Name", Value.text "a")], [("Name", Value.text "b")]] (by decide) (by decide)

/-- C7: when the target has exactly one more record than the baseline for
a tag T and agrees with it on the shared prefix, the surplus record is
verbatim the whole additions entry for T, and swapping the two
collections makes it verbatim the whole removals entry for T. -/
theorem diff_surplus_symmetry (cad1 cad2 : CADFeatures)
    (hw2 : (cad2.map Prod.fst).Nodup)
    (T : String) (l : List Record) (r : Record)
    (h1 : dget cad1 T = some l) (h2 : dget cad2 T = some (l ++ [r])) :
    dget (compare_features cad1 cad2).additions T = some [r] ∧
    dget (compare_features cad2 cad1).removals T = some [r] := by
  have hm1 : dmem cad1 T = true := dmem_of_dget_some h1
  have hlen : l.length < (l ++ [r]).length := by simp
  constructor
  · rw [dget_compare_additions cad1 cad2 hw2 T, h2, Option.some_bind]
    simp [addForTag, hm1, h1, hlen, List.drop_left]
  · rw [dget_compare_removals cad2 cad1 hw2 T, h2, Option.some_bind]
    simp [remForTag, hm1, h1, hlen, List.drop_left]

/-- C7 witness: the surplus record moves between additions and removals
when baseline and target are swapped. -/
theorem diff_surplus_symmetry_witness :
    dget (compare_features [("T", [[("Name", Value.text "a")]])]
        [("T", [[("Name", Value.text "a")], [("Name", Value.text "b")]])]).additions "T"
      = some [[("Name", Value.text "b")]] ∧
    dget (compare_features [("T", [[("Name", Value.text "a")], [("Name", Value.text "b")]])]
        [("T", [[("Name", Value.text "a")]])]).removals "T"
      = some [[("Name", Value.text "b")]] :=
  diff_surplus_symmetry [("T", [[("Name", Value.text "a")]])]
    [("T", [[("Name", Value.text "a")], [("Name", Value.text "b")]])]
    (by decide) "T" [[("Name", Value.text "a")]] [("Name", Value.text "b")]
    (by decide) (by decide)

/-- C8: for every successfully extracted document, the record list of a
tag is exactly the records of the feature nodes carrying that tag, in
document order (the order of the filtered child list); in particular a
document with features in order A, B, A yields a two-element list for A
preserving the relative order of the two A instances. -/
theorem extract_preserves_document_order (root : XMLNode) (fs : CADFeatures)
    (h : extract_features root = Except.ok fs) (t : String) :
    ∃ rs : List Record,
      (root.children.filter (fun c => c.tag == t)).map recordOf = rs.map Except.ok ∧
      dget fs t = if rs.isEmpty then none else some rs := by
  obtain ⟨rs, hmap, hdg⟩ := extractGo_dget root.children [] fs h t
  refine ⟨rs, hmap, ?_⟩
  rw [hdg]
  cases rs <;> simp [optApp, dget_nil]

/-- C8 witness: the document with features in order A, B, A yields the
two A records in their original relative order. -/
theorem extract_preserves_document_order_witness :
    ∃ rs : List Record,
      ((XMLNode.mk "root" none
        [XMLNode.mk "A" none [XMLNode.mk "Name" (some "one") []],
         XMLNode.mk "B" none [XMLNode.mk "Name" (some "mid") []],
         XMLNode.mk "A" none [XMLNode.mk "Name" (some "two") []]]).children.filter
          (fun c => c.tag == "A")).map recordOf = rs.map Except.ok ∧
      dget ([("A", [[("Name", Value.text "one")], [("Name", Value.text "two")]]),
             ("B", [[("Name", Value.text "mid")]])] : CADFeatures) "A"
        = if rs.isEmpty then none else some rs :=
  extract_preserves_document_order
    (XMLNode.mk "root" none
      [XMLNode.mk "A" none [XMLNode.mk "Name" (some "one") []],
       XMLNode.mk "B" none [XMLNode.mk "Name" (some "mid") []],
       XMLNode.mk "A" none [XMLNode.mk "Name" (some "two") []]])
    [("A", [[("Name", Value.text "one")], [("Name", Value.text "two")]]),
     ("B", [[("Name", Value.text "mid")]])]
    (by decide) "A"

/-- C9: when a feature node repeats an attribute tag, the extracted record
holds exactly one entry for that name (its keys are duplicate free) and
the stored value is the classification of the stripped text of the last
occurrence in document order. -/
theorem duplicate_attribute_last_wins (attrs : List XMLNode) (r : Record)
    (h : extractRecord attrs [] = Except.ok r) :
    (r.map Prod.fst).Nodup ∧
    ∀ k : String,
      dget r k = (attrs.reverse.find? (fun a => a.tag == k)).map
        (fun a => classify (pyStrip (a.text.getD ""))) := by
  refine ⟨extractRecord_nodup attrs [] r h (by simp), fun k => ?_⟩
  rw [extractRecord_dget attrs [] r h k]
  cases hf : attrs.reverse.find? (fun a => a.tag == k) <;> simp [hf, dget_nil]

/-- C9 witness: a Depth attribute occurring twice leaves one entry whose
value classifies the text of the second occurrence. -/
theorem duplicate_attribute_last_wins_witness :
    (([("Depth", Value.num (PyFloat.finite 2))] : Record).map Prod.fst).Nodup ∧
    ∀ k : String,
      dget ([("Depth", Value.num (PyFloat.finite 2))] : Record) k
        = (([XMLNode.mk "Depth" (some "1") [],
             XMLNode.mk "Depth" (some "2") []] : List XMLNode).reverse.find?
            (fun a => a.tag == k)).map
            (fun a => classify (pyStrip (a.text.getD ""))) :=
  duplicate_attribute_last_wins
    [XMLNode.mk "Depth" (some "1") [], XMLNode.mk "Depth" (some "2") []]
    [("Depth", Value.num (PyFloat.finite 2))] (by decide)

/-- C10: when both input collections map every tag to a non-empty record
list, as every extracted collection does (final conjunct), each of the
three report tables holds a tag key only with a non-empty list. -/
theorem report_tag_lists_nonempty (cad1 cad2 : CADFeatures)
    (h1 : ∀ p ∈ cad1, p.2 ≠ []) (h2 : ∀ p ∈ cad2, p.2 ≠ []) :
    (∀ p ∈ (compare_features cad1 cad2).additions, p.2 ≠ []) ∧
    (∀ p ∈ (compare_features cad1 cad2).modifications, p.2 ≠ []) ∧
    (∀ p ∈ (compare_features cad1 cad2).removals, p.2 ≠ []) ∧
    (∀ (root : XMLNode) (fs : CADFeatures), extract_features root = Except.ok fs →
      ∀ p ∈ fs, p.2 ≠ []) := by
  refine ⟨?_, ?_, ?_, ?_⟩
  · intro p hp
    obtain ⟨q, hq, hqe⟩ := List.mem_filterMap.mp hp
    cases haf : addForTag cad1 q.1 q.2 with
    | none => rw [haf] at hqe; cases hqe
    | some l =>
      rw [haf] at hqe
      have hqe2 : some ((q.1, l) : String × List Record) = some p := hqe
      injection hqe2 with he
      subst he
      show l ≠ []
      unfold addForTag at haf
      by_cases hm : dmem cad1 q.1 = true
      · rw [if_pos hm] at haf
        by_cases hlt : ((dget cad1 q.1).getD []).length < q.2.length
        · rw [if_pos hlt] at haf
          injection haf with he
          subst he
          intro hnil
          rw [List.drop_eq_nil_iff] at hnil
          omega
        · rw [if_neg hlt] at haf
          cases haf
      · rw [if_neg hm] at haf
        injection haf with he
        subst he
        exact h2 q hq
  · intro p hp
    obtain ⟨q, hq, hqe⟩ := List.mem_filterMap.mp hp
    cases hmf : modsForTag cad1 q.1 q.2 with
    | none => rw [hmf] at hqe; cases hqe
    | some l =>
      rw [hmf] at hqe
      have hqe2 : some ((q.1, l) : String × List ModEntry) = some p := hqe
      injection hqe2 with he
      subst he
      show l ≠ []
      unfold modsForTag at hmf
      by_cases hm : dmem cad1 q.1 = true
      · rw [if_pos hm] at hmf
        by_cases hfe : (featureMods ((dget cad1 q.1).getD []) q.2).isEmpty = true
        · rw [if_pos hfe] at hmf
          cases hmf
        · rw [if_neg hfe] at hmf
          injection hmf with he
          subst he
          intro hnil
          rw [hnil] at hfe
          exact hfe rfl
      · rw [if_neg hm] at hmf
        cases hmf
  · intro p hp
    obtain ⟨q, hq, hqe⟩ := List.mem_filterMap.mp hp
    cases hrf : remForTag cad2 q.1 q.2 with
    | none => rw [hrf] at hqe; cases hqe
    | some l =>
      rw [hrf] at hqe
      have hqe2 : some ((q.1, l) : String × List Record) = some p := hqe
      injection hqe2 with he
      subst he
      show l ≠ []
      unfold remForTag at hrf
      by_cases hm : dmem cad2 q.1 = true
      · rw [if_pos hm] at hrf
        by_cases hlt : ((dget cad2 q.1).getD []).length < q.2.length
        · rw [if_pos hlt] at hrf
          injection hrf with he
          subst he
          intro hnil
          rw [List.drop_eq_nil_iff] at hnil
          omega
        · rw [if_neg hlt] at hrf
          cases hrf
      · rw [if_neg hm] at hrf
        injection hrf with he
        subst he
        exact h1 q hq
  · intro root fs h
    exact extractGo_values_ne_nil root.children [] fs h (by simp)

/-- C10 witness: a concrete report on collections with non-empty lists. -/
theorem report_tag_lists_nonempty_witness :
    (∀ p ∈ (compare_features [("A", [[("Name", Value.text "a")]])]
        [("B", [[("Name", Value.text "b")]])]).additions, p.2 ≠ []) ∧
    (∀ p ∈ (compare_features [("A", [[("Name", Value.text "a")]])]
        [("B", [[("Name", Value.text "b")]])]).modifications, p.2 ≠ []) ∧
    (∀ p ∈ (compare_features [("A", [[("Name", Value.text "a")]])]
        [("B", [[("Name", Value.text "b")]])]).removals, p.2 ≠ []) ∧
    (∀ (root : XMLNode) (fs : CADFeatures), extract_features root = Except.ok fs →
      ∀ p ∈ fs, p.2 ≠ []) :=
  report_tag_lists_nonempty [("A", [[("Name", Value.text "a")]])]
    [("B", [[("Name", Value.text "b")]])] (by decide) (by decide)

theorem contains_false_not_mem {l : List String} {x : String}
    (h : l.contains x = false) : x ∉ l := by
  intro hm
  have he : l.elem x = true := List.elem_eq_true_of_mem hm
  rw [show l.contains x = l.elem x from rfl, he] at h
  cases h

theorem contains_true_mem {l : List String} {x : String}
    (h : l.contains x = true) : x ∈ l :=
  List.mem_of_elem_eq_true (by rw [show l.elem x = l.contains x from rfl, h])

/-- C4 counterexample: the attribute named Depth is in neither the tool
type list nor the numeric name tuple, its text 3 classifies as a Number
under the CAD contract, yet the CAM extractor stores the raw string 3,
which is a different CAM value: the CAM extractor does not follow the CAD
classification contract on value shape. -/
theorem cam_not_value_shape_counterexample :
    TOOLSTYPELIST.contains "Depth" = false ∧
    camNumericNames.contains "Depth" = false ∧
    camAttr [] (XMLNode.mk "Depth" (some "3") []) = some [("Depth", CAMValue.str "3")] ∧
    camOfValue (classify (pyStrip "3")) = some (CAMValue.num (PyFloat.finite 3)) ∧
    (CAMValue.str "3" == CAMValue.num (PyFloat.finite 3)) = false := by
  refine ⟨by decide, by decide, by decide, by decide, by decide⟩

/-- C4 (amended): the CAM extractor performs no value-shape
classification: a leaf attribute outside the tool type list and outside
the numeric name tuple stores its stripped text verbatim as a string
(even when it looks like a number or a point); an attribute in the
numeric name tuple is converted with float by name; a child tag in the
tool type list is parsed as a nested tool record. -/
theorem cam_attr_by_name_only (d : CAMRecord) (a : XMLNode) :
    (TOOLSTYPELIST.contains a.tag = false → camNumericNames.contains a.tag = false →
      ∀ tx, a.text = some tx →
        camAttr d a = some (dictInsert d a.tag (CAMValue.str (pyStrip tx)))) ∧
    (TOOLSTYPELIST.contains a.tag = false → camNumericNames.contains a.tag = true →
      ∀ tx q, a.text = some tx → pyFloat? (pyStrip tx) = some q →
        camAttr d a = some (dictInsert d a.tag (CAMValue.num q))) ∧
    (TOOLSTYPELIST.contains a.tag = true →
      ∀ ti, parseToolInfo a.children [] = some ti →
        camAttr d a = some (dictInsert d a.tag (CAMValue.tool ti))) := by
  refine ⟨?_, ?_, ?_⟩
  · intro ht hn tx htx
    simp [camAttr, contains_false_not_mem ht, contains_false_not_mem hn, htx]
  · intro ht hn tx q htx hq
    simp [camAttr, contains_false_not_mem ht, contains_true_mem hn, htx, hq]
  · intro ht ti hti
    simp [camAttr, contains_true_mem ht, hti]

/-- C4 witness: a Pitch attribute with numeric-looking text stays a raw
string, a Step attribute is converted by name. -/
theorem cam_attr_by_name_only_witness :
    camAttr [] (XMLNode.mk "Pitch" (some " 2.5 ") []) =
      some [("Pitch", CAMValue.str "2.5")] ∧
    camAttr [] (XMLNode.mk "Step" (some "2.5") []) =
      some [("Step", CAMValue.num (PyFloat.finite (mkRat 5 2)))] := by
  constructor
  · have h := (cam_attr_by_name_only [] (XMLNode.mk "Pitch" (some " 2.5 ") [])).1
      (by decide) (by decide) " 2.5 " rfl
    rw [h]
    decide
  · have h := (cam_attr_by_name_only [] (XMLNode.mk "Step" (some "2.5") [])).2.1
      (by decide) (by decide) "2.5" (PyFloat.finite (mkRat 5 2)) rfl (by decide)
    rw [h]
    decide

end DSVC
